import Mathlib

/-!
Shallow embedding of the Bearer-token authentication middleware of the
priceTracker-api repository (file src/middleware/bearerAuth.ts), together
with proofs of the specification claims about it.

Strings from the source are modelled as lists of Unicode scalar values
(List Char); byte buffers (Node Buffer) as lists of byte values (List Nat).
The configured token set and the exempted path set, which the source reads
from configuration at process start, are passed as explicit parameters.
-/

namespace PriceTracker

/-- The JavaScript whitespace class: the characters matched by the regular
expression class backslash-s and removed by String.prototype.trim. -/
def isWs (c : Char) : Bool :=
  c = ' ' || c = '\t' || c = '\n' || c.toNat = 0x0B || c.toNat = 0x0C || c = '\r' ||
  c.toNat = 0xA0 || c.toNat = 0x1680 || (0x2000 ≤ c.toNat && c.toNat ≤ 0x200A) ||
  c.toNat = 0x2028 || c.toNat = 0x2029 || c.toNat = 0x202F || c.toNat = 0x205F ||
  c.toNat = 0x3000 || c.toNat = 0xFEFF

/-- JavaScript String.prototype.trim: drop leading and trailing whitespace. -/
def jsTrim (s : List Char) : List Char :=
  ((s.dropWhile isWs).reverse.dropWhile isWs).reverse

/-- Worker for splitting on runs of whitespace, in the manner of the
JavaScript call str.split on a whitespace-run regular expression.
The boolean argument records whether we are currently inside a whitespace
run (so that a run of several whitespace characters produces a single cut);
the accumulator holds the characters of the current token, reversed. -/
def splitWsAux : List Char → Bool → List Char → List (List Char)
  | [], _, acc => [acc.reverse]
  | c :: rest, inWs, acc =>
    if isWs c then
      if inWs then splitWsAux rest true acc
      else acc.reverse :: splitWsAux rest true []
    else splitWsAux rest false (c :: acc)

/-- JavaScript split of a string on runs of whitespace: the empty string
yields one empty token, leading and trailing whitespace runs yield empty
boundary tokens, exactly as str.split does with a whitespace-run pattern. -/
def splitWs (s : List Char) : List (List Char) :=
  splitWsAux s false []

/-- JavaScript String.prototype.toLowerCase, per character, on the basic
Latin range (the only range the scheme comparison against "bearer" can
distinguish; other characters are left unchanged in this model). -/
def jsToLower (c : Char) : Char :=
  if 65 ≤ c.toNat ∧ c.toNat ≤ 90 then Char.ofNat (c.toNat + 32) else c

/-- An ASCII upper-case letter. -/
def isAsciiUpper (c : Char) : Prop :=
  65 ≤ c.toNat ∧ c.toNat ≤ 90

instance (c : Char) : Decidable (isAsciiUpper c) := by
  unfold isAsciiUpper; infer_instance

/-- Result of parsing an Authorization header
(interface ParsedAuthHeader in src/types/middleware.ts). -/
structure ParsedAuthHeader where
  scheme : List Char
  token : List Char
deriving DecidableEq

/-- parseAuthorizationHeader from src/middleware/bearerAuth.ts: trim the
header, split it on runs of whitespace, require exactly two non-empty
parts, lower-case the scheme and trim the token. -/
def parseAuthorizationHeader (authHeader : List Char) : Option ParsedAuthHeader :=
  let trimmed := jsTrim authHeader
  let parts := splitWs trimmed
  if parts.length ≠ 2 then
    none
  else
    match parts with
    | [scheme, token] =>
      if scheme = [] ∨ token = [] then
        none
      else
        some ⟨scheme.map jsToLower, jsTrim token⟩
    | _ => none

/-- UTF-8 encoding of one Unicode scalar value, byte by byte; this is what
Node's Buffer.from does to each character of a (well-formed) string. -/
def utf8EncodeChar (c : Char) : List Nat :=
  let n := c.toNat
  if n < 0x80 then [n]
  else if n < 0x800 then
    [0xC0 ||| (n >>> 6), 0x80 ||| (n &&& 0x3F)]
  else if n < 0x10000 then
    [0xE0 ||| (n >>> 12), 0x80 ||| ((n >>> 6) &&& 0x3F), 0x80 ||| (n &&& 0x3F)]
  else
    [0xF0 ||| (n >>> 18), 0x80 ||| ((n >>> 12) &&& 0x3F),
     0x80 ||| ((n >>> 6) &&& 0x3F), 0x80 ||| (n &&& 0x3F)]

/-- UTF-8 byte sequence of a string: the bytes of the Node Buffer built by
Buffer.from on that string. -/
def utf8Encode (s : List Char) : List Nat :=
  (s.map utf8EncodeChar).flatten

/-- Buffer.from on a string: UTF-8 encodes and, on a well-formed string,
never fails. Kept in the fallible interface so that the try-catch in
compareTokens has its actual semantics. -/
def bufferFrom (s : List Char) : Except String (List Nat) :=
  Except.ok (utf8Encode s)

/-- Contract of crypto.timingSafeEqual (an external native primitive):
on equal-length buffers it reports whether they are byte-for-byte equal,
on unequal lengths it throws. -/
def timingSafeEqual (a b : List Nat) : Except String Bool :=
  if a.length = b.length then Except.ok (a == b)
  else Except.error "ERR_CRYPTO_TIMING_SAFE_EQUAL_LENGTH"

/-- The try-block of compareTokens from src/middleware/bearerAuth.ts,
parametrized over the two external primitives it calls (the buffer
builder and the equality primitive), so that their possible failures are
part of the model: build both buffers, return false on a length mismatch,
otherwise ask the equality primitive. -/
def compareTokensBody (buf : List Char → Except String (List Nat))
    (tse : List Nat → List Nat → Except String Bool)
    (providedToken validToken : List Char) : Except String Bool := do
  let providedBuffer ← buf providedToken
  let validBuffer ← buf validToken
  if providedBuffer.length ≠ validBuffer.length then
    return false
  tse providedBuffer validBuffer

/-- compareTokens with its catch-all handler: any exception from the body
becomes the answer false. -/
def compareTokensWith (buf : List Char → Except String (List Nat))
    (tse : List Nat → List Nat → Except String Bool)
    (providedToken validToken : List Char) : Bool :=
  match compareTokensBody buf tse providedToken validToken with
  | Except.ok r => r
  | Except.error _ => false

/-- compareTokens from src/middleware/bearerAuth.ts, instantiated with the
actual behaviour of Buffer.from and crypto.timingSafeEqual. -/
def compareTokens (providedToken validToken : List Char) : Bool :=
  compareTokensWith bufferFrom timingSafeEqual providedToken validToken

/-- isValidToken from src/middleware/bearerAuth.ts: loop over the
configured tokens and return true on the first constant-time match. The
configured token set, which the source obtains from getBearerTokens(), is
the explicit first argument. -/
def isValidToken (validTokens : List (List Char)) (token : List Char) : Bool :=
  validTokens.any (fun validToken => compareTokens token validToken)

/-- EXEMPTED_PATHS from src/middleware/bearerAuth.ts: currently empty,
since path exemptions moved to the router level. -/
def EXEMPTED_PATHS : List (List Char) := []

/-- isExemptedPath from src/middleware/bearerAuth.ts: a path is exempted
when it equals an exempted entry exactly or starts with an exempted entry
followed by the path separator. The exempted set is the explicit first
argument (the source closes over EXEMPTED_PATHS). -/
def isExemptedPath (exemptedPaths : List (List Char)) (path : List Char) : Bool :=
  exemptedPaths.any
    (fun exemptedPath => path == exemptedPath || (exemptedPath ++ ['/']).isPrefixOf path)

/-- Result of Bearer authentication validation
(interface BearerAuthResult in src/types/middleware.ts). -/
structure BearerAuthResult where
  success : Bool
  exempted : Option Bool
  error : Option String
  message : Option String
deriving DecidableEq

/-- The exempted-success result object of validateBearerAuth. -/
def exemptedResult : BearerAuthResult := ⟨true, some true, none, none⟩

/-- The plain success result object of validateBearerAuth. -/
def successResult : BearerAuthResult := ⟨true, none, none, none⟩

/-- The missing-authorization failure object of validateBearerAuth. -/
def missingAuthResult : BearerAuthResult :=
  ⟨false, none, some "Missing authorization",
   some "Authorization header is required. Format: Authorization: Bearer <token>"⟩

/-- The malformed-header failure object of validateBearerAuth (parse
failure branch). -/
def malformedResult : BearerAuthResult :=
  ⟨false, none, some "Malformed header",
   some "Malformed Authorization header. Format: Authorization: Bearer <token>"⟩

/-- The invalid-scheme failure object of validateBearerAuth. -/
def invalidSchemeResult : BearerAuthResult :=
  ⟨false, none, some "Invalid scheme",
   some "Authorization header must use Bearer scheme. Format: Authorization: Bearer <token>"⟩

/-- The empty-token failure object of validateBearerAuth (also reported as
a malformed header, but with its own message). -/
def emptyTokenResult : BearerAuthResult :=
  ⟨false, none, some "Malformed header",
   some "Bearer token cannot be empty. Format: Authorization: Bearer <token>"⟩

/-- The invalid-token failure object of validateBearerAuth. -/
def invalidTokenResult : BearerAuthResult :=
  ⟨false, none, some "Invalid token",
   some "Invalid Bearer token. Please check your authentication credentials."⟩

/-- validateBearerAuth from src/middleware/bearerAuth.ts. The header is an
Option: none models the absent / undefined JavaScript value. The
configured token set and the exempted path set are explicit parameters. -/
def validateBearerAuth (validTokens exemptedPaths : List (List Char))
    (authHeader : Option (List Char)) (path : List Char) : BearerAuthResult :=
  if isExemptedPath exemptedPaths path then
    exemptedResult
  else
    match authHeader with
    | none => missingAuthResult
    | some h =>
      -- In the source this is one test: a falsy header (undefined or the
      -- empty string) or a header that trims to the empty string.
      if h = [] ∨ jsTrim h = [] then
        missingAuthResult
      else
        match parseAuthorizationHeader h with
        | none => malformedResult
        | some parsed =>
          if parsed.scheme ≠ "bearer".toList then
            invalidSchemeResult
          else if parsed.token = [] then
            emptyTokenResult
          else if ¬ isValidToken validTokens parsed.token then
            invalidTokenResult
          else
            successResult

/-- The per-request inputs the middleware reads from the Express request
object: the Authorization header, the path, and the fields used only for
logging (Express ip, the socket remote address, the User-Agent header). -/
structure RequestModel where
  authHeader : Option (List Char)
  path : List Char
  ip : Option String
  remoteAddress : Option String
  userAgent : Option String

/-- JavaScript or-else on possibly-absent strings: the empty string and the
absent value are both falsy. -/
def jsOrElse (v : Option String) (d : String) : String :=
  match v with
  | some s => if s = "" then d else s
  | none => d

/-- getClientIP from src/middleware/bearerAuth.ts: req.ip, else the
connection remote address, else the string unknown. -/
def getClientIP (req : RequestModel) : String :=
  jsOrElse req.ip (jsOrElse req.remoteAddress "unknown")

/-- One security log record as written by logAuthenticationFailure
(fields of the console.warn payload, plus the event text). -/
structure SecurityLogEvent where
  event : String
  timestamp : String
  error : Option String
  path : List Char
  clientIp : String
  userAgent : Option String
deriving DecidableEq

/-- The standardized JSON body of a 401 rejection. -/
structure ResponseBody where
  success : Bool
  error : Option String
  message : Option String
  timestamp : String
deriving DecidableEq

/-- The observable outcome of one run of the middleware: either a response
is sent (and the chain stops) or the next handler is called (and the
middleware produces no body). -/
inductive MiddlewareAction where
  | respond (status : Nat) (body : ResponseBody)
  | callNext
deriving DecidableEq

/-- What the middleware run produced: an optional security log record
(emitted only on failure with logging enabled) and the action taken. -/
structure MiddlewareOutcome where
  log : Option SecurityLogEvent
  action : MiddlewareAction
deriving DecidableEq

/-- logAuthenticationFailure from src/middleware/bearerAuth.ts, returning
the record it writes (or none when the logging flag is off). -/
def logAuthenticationFailure (logSecurityEvents : Bool) (event : String)
    (timestamp : String) (error : Option String) (path : List Char)
    (clientIp : String) (userAgent : Option String) : Option SecurityLogEvent :=
  if logSecurityEvents then
    some ⟨event, timestamp, error, path, clientIp, userAgent⟩
  else
    none

/-- The bearerAuth middleware from src/middleware/bearerAuth.ts: validate,
then on failure log and answer 401 with the standardized body, otherwise
call the next handler. The timestamp argument stands for the value of
new Date at the time of the request. -/
def bearerAuth (validTokens exemptedPaths : List (List Char))
    (logSecurityEvents : Bool) (req : RequestModel) (now : String) : MiddlewareOutcome :=
  let result := validateBearerAuth validTokens exemptedPaths req.authHeader req.path
  if result.success = false then
    ⟨logAuthenticationFailure logSecurityEvents "Authentication failed" now
       result.error req.path (getClientIP req) req.userAgent,
     MiddlewareAction.respond 401 ⟨false, result.error, result.message, now⟩⟩
  else
    ⟨none, MiddlewareAction.callNext⟩

/-- The six terminal states of the authentication decision, as named by the
specification. -/
inductive AuthDecision where
  | exemptedSuccess
  | success
  | missingAuthorization
  | malformedHeader
  | invalidScheme
  | invalidToken
deriving DecidableEq

/-- The decision state a BearerAuthResult denotes, read off its success
flag, exempted flag and error code. -/
def decisionOf (r : BearerAuthResult) : AuthDecision :=
  if r.success then
    if r.exempted = some true then AuthDecision.exemptedSuccess
    else AuthDecision.success
  else if r.error = some "Missing authorization" then AuthDecision.missingAuthorization
  else if r.error = some "Invalid scheme" then AuthDecision.invalidScheme
  else if r.error = some "Invalid token" then AuthDecision.invalidToken
  else AuthDecision.malformedHeader

/-- The transition table of the specification for a non-exempted request,
written from the spec's own words (steps 2 to 7 of its section 4.5), to be
compared with validateBearerAuth: an absent or whitespace-only header is a
missing authorization; a header that does not split into exactly two
whitespace-separated tokens after trimming is malformed; a lower-cased
scheme other than bearer is an invalid scheme; an empty parsed token is
malformed; a token matching no configured token is invalid; anything else
succeeds. -/
def specAuthDecision (validTokens : List (List Char))
    (authHeader : Option (List Char)) : AuthDecision :=
  match authHeader with
  | none => AuthDecision.missingAuthorization
  | some h =>
    if jsTrim h = [] then AuthDecision.missingAuthorization
    else
      match splitWs (jsTrim h) with
      | [schemeTok, tokenTok] =>
        if schemeTok.map jsToLower ≠ "bearer".toList then AuthDecision.invalidScheme
        else if jsTrim tokenTok = [] then AuthDecision.malformedHeader
        else if isValidToken validTokens (jsTrim tokenTok) then AuthDecision.success
        else AuthDecision.invalidToken
      | _ => AuthDecision.malformedHeader

/-! Helper lemmas. -/

theorem toNat_charOfNat_of_lt {n : Nat} (h : n < 55296) : (Char.ofNat n).toNat = n := by
  have hv : n.isValidChar := Or.inl h
  unfold Char.ofNat
  rw [dif_pos hv]
  rfl

theorem jsToLower_not_upper (c : Char) : ¬ isAsciiUpper (jsToLower c) := by
  unfold jsToLower
  split
  case isTrue h =>
    intro hu
    unfold isAsciiUpper at hu
    rw [toNat_charOfNat_of_lt (by omega)] at hu
    omega
  case isFalse h =>
    exact h

theorem head?_dropWhile_not (p : Char → Bool) (l : List Char) (a : Char)
    (h : (l.dropWhile p).head? = some a) : p a = false := by
  induction l with
  | nil => simp [List.dropWhile] at h
  | cons c rest ih =>
    rw [List.dropWhile_cons] at h
    by_cases hc : p c
    · rw [if_pos hc] at h
      exact ih h
    · rw [if_neg hc] at h
      simp only [List.head?_cons, Option.some.injEq] at h
      subst h
      exact Bool.eq_false_iff.mpr hc

theorem getLast?_dropWhile (p : Char → Bool) (l : List Char)
    (h : l.dropWhile p ≠ []) : (l.dropWhile p).getLast? = l.getLast? := by
  induction l with
  | nil => simp [List.dropWhile] at h
  | cons c rest ih =>
    rw [List.dropWhile_cons] at h ⊢
    by_cases hc : p c
    · rw [if_pos hc] at h ⊢
      have hrest : rest ≠ [] := by
        intro hr
        subst hr
        simp [List.dropWhile] at h
      rw [ih h]
      match rest, hrest with
      | d :: t, _ => rw [List.getLast?_cons_cons]
    · rw [if_neg hc]

theorem jsTrim_head_not_ws (s : List Char) (c : Char)
    (h : (jsTrim s).head? = some c) : isWs c = false := by
  unfold jsTrim at h
  rw [List.head?_reverse] at h
  have hne : ((s.dropWhile isWs).reverse.dropWhile isWs) ≠ [] := by
    intro h0
    rw [h0] at h
    simp at h
  rw [getLast?_dropWhile _ _ hne, List.getLast?_reverse] at h
  exact head?_dropWhile_not _ _ _ h

theorem jsTrim_getLast_not_ws (s : List Char) (c : Char)
    (h : (jsTrim s).getLast? = some c) : isWs c = false := by
  unfold jsTrim at h
  rw [List.getLast?_reverse] at h
  exact head?_dropWhile_not _ _ _ h

theorem jsTrim_eq_self_of_no_ws (l : List Char)
    (h : ∀ c ∈ l, isWs c = false) : jsTrim l = l := by
  unfold jsTrim
  have h1 : l.dropWhile isWs = l := by
    cases l with
    | nil => rfl
    | cons c rest =>
      rw [List.dropWhile_cons, if_neg]
      simp [h c (List.mem_cons_self c rest)]
  rw [h1]
  have h2 : l.reverse.dropWhile isWs = l.reverse := by
    cases hr : l.reverse with
    | nil => rfl
    | cons c rest =>
      rw [List.dropWhile_cons, if_neg]
      have : c ∈ l := by
        rw [← List.mem_reverse, hr]
        exact List.mem_cons_self c rest
      simp [h c this]
  rw [h2, List.reverse_reverse]

theorem splitWsAux_no_ws (l : List Char) :
    ∀ (inWs : Bool) (acc : List Char), (∀ c ∈ acc, isWs c = false) →
      ∀ p ∈ splitWsAux l inWs acc, ∀ c ∈ p, isWs c = false := by
  induction l with
  | nil =>
    intro inWs acc hacc p hp c hc
    simp only [splitWsAux, List.mem_singleton] at hp
    subst hp
    exact hacc c (List.mem_reverse.mp hc)
  | cons a rest ih =>
    intro inWs acc hacc p hp c hc
    simp only [splitWsAux] at hp
    by_cases ha : isWs a
    · rw [if_pos ha] at hp
      cases inWs with
      | true =>
        simp only [if_pos rfl] at hp
        exact ih true acc hacc p hp c hc
      | false =>
        simp only [Bool.false_eq_true, if_neg] at hp
        rcases List.mem_cons.mp hp with h1 | h1
        · subst h1
          exact hacc c (List.mem_reverse.mp hc)
        · exact ih true [] (by simp) p h1 c hc
    · rw [if_neg ha] at hp
      refine ih false (a :: acc) ?_ p hp c hc
      intro d hd
      rcases List.mem_cons.mp hd with h1 | h1
      · subst h1
        exact Bool.eq_false_iff.mpr ha
      · exact hacc d h1

theorem splitWsAux_nonempty (l : List Char) :
    ∀ (inWs : Bool) (acc : List Char),
      (∀ c, l.getLast? = some c → isWs c = false) →
      (inWs = false → acc ≠ []) →
      (inWs = true → l ≠ []) →
      ∀ p ∈ splitWsAux l inWs acc, p ≠ [] := by
  induction l with
  | nil =>
    intro inWs acc _ h2 h3 p hp
    cases inWs with
    | true => exact absurd rfl (h3 rfl)
    | false =>
      simp only [splitWsAux, List.mem_singleton] at hp
      subst hp
      simpa using h2 rfl
  | cons a rest ih =>
    intro inWs acc h1 h2 h3 p hp
    simp only [splitWsAux] at hp
    by_cases ha : isWs a
    · rw [if_pos ha] at hp
      have hrest : rest ≠ [] := by
        intro hr
        subst hr
        have := h1 a rfl
        rw [ha] at this
        exact Bool.true_eq_false.mp this
      have h1r : ∀ c, rest.getLast? = some c → isWs c = false := by
        intro c hc
        apply h1
        match rest, hrest with
        | d :: t, _ => rw [List.getLast?_cons_cons]; exact hc
      cases inWs with
      | true =>
        simp only [if_pos rfl] at hp
        exact ih true acc h1r (by intro h; exact absurd h (by simp)) (fun _ => hrest) p hp
      | false =>
        simp only [Bool.false_eq_true, if_neg] at hp
        rcases List.mem_cons.mp hp with h4 | h4
        · subst h4
          simpa using h2 rfl
        · exact ih true [] h1r (by intro h; exact absurd h (by simp)) (fun _ => hrest) p h4
    · rw [if_neg ha] at hp
      have h1r : ∀ c, rest.getLast? = some c → isWs c = false := by
        intro c hc
        cases rest with
        | nil => simp at hc
        | cons d t =>
          apply h1
          rw [List.getLast?_cons_cons]
          exact hc
      exact ih false (a :: acc) h1r (fun _ => by simp) (by intro h; simp at h) p hp

theorem splitWs_no_ws (s : List Char) :
    ∀ p ∈ splitWs s, ∀ c ∈ p, isWs c = false :=
  splitWsAux_no_ws s false [] (by simp)

theorem splitWs_jsTrim_nonempty (s : List Char) (hne : jsTrim s ≠ []) :
    ∀ p ∈ splitWs (jsTrim s), p ≠ [] := by
  match ht : jsTrim s, hne with
  | a :: rest, _ =>
    have hhead : isWs a = false := by
      apply jsTrim_head_not_ws s
      rw [ht]
      rfl
    have hlast : ∀ c, rest.getLast? = some c → isWs c = false := by
      intro c hc
      apply jsTrim_getLast_not_ws s
      rw [ht]
      cases rest with
      | nil => simp at hc
      | cons d t =>
        rw [List.getLast?_cons_cons]
        exact hc
    intro p hp
    have hstep : splitWs (a :: rest) = splitWsAux rest false [a] := by
      simp [splitWs, splitWsAux, hhead]
    rw [hstep] at hp
    exact splitWsAux_nonempty rest false [a] hlast (fun _ => by simp)
      (by intro h; simp at h) p hp

theorem parse_characterization (s : List Char) :
    parseAuthorizationHeader s =
      (match splitWs (jsTrim s) with
       | [sc, tk] => some ⟨sc.map jsToLower, tk⟩
       | _ => none) := by
  unfold parseAuthorizationHeader
  match hp : splitWs (jsTrim s) with
  | [] => simp only [hp]; simp
  | [sc] => simp only [hp]; simp
  | sc :: tk :: c :: t => simp only [hp]; simp
  | [sc, tk] =>
    have htrim : jsTrim s ≠ [] := by
      intro h0
      rw [h0] at hp
      simp [splitWs, splitWsAux] at hp
    have hsc : sc ≠ [] := splitWs_jsTrim_nonempty s htrim sc (by rw [hp]; simp)
    have htk : tk ≠ [] := splitWs_jsTrim_nonempty s htrim tk (by rw [hp]; simp)
    have htkself : jsTrim tk = tk := by
      apply jsTrim_eq_self_of_no_ws
      intro c hc
      exact splitWs_no_ws (jsTrim s) tk (by rw [hp]; simp) c hc
    simp only [hp]
    simp [hsc, htk, htkself]

theorem compareTokens_eval (a b : List Char) :
    compareTokens a b =
      (if (utf8Encode a).length = (utf8Encode b).length then utf8Encode a == utf8Encode b
       else false) := by
  by_cases hl : (utf8Encode a).length = (utf8Encode b).length
  · simp [compareTokens, compareTokensWith, compareTokensBody, bufferFrom, timingSafeEqual,
      hl, Bind.bind, Except.bind, Pure.pure, Except.pure]
  · simp [compareTokens, compareTokensWith, compareTokensBody, bufferFrom, timingSafeEqual,
      hl, Bind.bind, Except.bind, Pure.pure, Except.pure]

theorem compareTokens_true_iff (a b : List Char) :
    compareTokens a b = true ↔ utf8Encode a = utf8Encode b := by
  rw [compareTokens_eval]
  by_cases hl : (utf8Encode a).length = (utf8Encode b).length
  · simp [hl]
  · simp only [if_neg hl]
    constructor
    · intro h
      exact absurd h (by simp)
    · intro h
      exact absurd (by rw [h]) hl

theorem decisionOf_exempted : decisionOf exemptedResult = AuthDecision.exemptedSuccess := by
  decide

theorem decisionOf_success : decisionOf successResult = AuthDecision.success := by
  decide

theorem decisionOf_missing :
    decisionOf missingAuthResult = AuthDecision.missingAuthorization := by
  decide

theorem decisionOf_malformed :
    decisionOf malformedResult = AuthDecision.malformedHeader := by
  decide

theorem decisionOf_invalidScheme :
    decisionOf invalidSchemeResult = AuthDecision.invalidScheme := by
  decide

theorem decisionOf_emptyToken :
    decisionOf emptyTokenResult = AuthDecision.malformedHeader := by
  decide

theorem decisionOf_invalidToken :
    decisionOf invalidTokenResult = AuthDecision.invalidToken := by
  decide

theorem validateBearerAuth_cases (t e : List (List Char)) (h : Option (List Char))
    (p : List Char) :
    validateBearerAuth t e h p = exemptedResult ∨
    validateBearerAuth t e h p = missingAuthResult ∨
    validateBearerAuth t e h p = malformedResult ∨
    validateBearerAuth t e h p = invalidSchemeResult ∨
    validateBearerAuth t e h p = emptyTokenResult ∨
    validateBearerAuth t e h p = invalidTokenResult ∨
    validateBearerAuth t e h p = successResult := by
  unfold validateBearerAuth
  repeat' split
  all_goals simp

/-! Claim theorems. -/

/-- C2: compareTokens is true exactly when the two strings are
byte-identical (their UTF-8 byte sequences coincide); in particular it is
false whenever the byte lengths differ. -/
theorem compareTokens_byte_identical (a b : List Char) :
    (compareTokens a b = true ↔ utf8Encode a = utf8Encode b) ∧
    ((utf8Encode a).length ≠ (utf8Encode b).length → compareTokens a b = false) := by
  refine ⟨compareTokens_true_iff a b, ?_⟩
  intro hl
  rw [compareTokens_eval, if_neg hl]

theorem compareTokens_byte_identical_witness :
    compareTokens ("ab".toList) ("abc".toList) = false :=
  (compareTokens_byte_identical ("ab".toList) ("abc".toList)).2 (by decide)

/-- C4: isValidToken is true exactly when the candidate is byte-identical
to at least one configured token, and is false on the empty set. -/
theorem isValidToken_any_match (validTokens : List (List Char)) (token : List Char) :
    (isValidToken validTokens token = true ↔
      ∃ v ∈ validTokens, utf8Encode token = utf8Encode v) ∧
    isValidToken [] token = false := by
  constructor
  · unfold isValidToken
    rw [List.any_eq_true]
    constructor
    · rintro ⟨v, hv, hc⟩
      exact ⟨v, hv, (compareTokens_true_iff token v).mp hc⟩
    · rintro ⟨v, hv, hc⟩
      exact ⟨v, hv, (compareTokens_true_iff token v).mpr hc⟩
  · rfl

theorem isValidToken_any_match_witness :
    isValidToken ["t1".toList, "t2".toList] ("t2".toList) = true :=
  (isValidToken_any_match ["t1".toList, "t2".toList] ("t2".toList)).1.mpr
    ⟨"t2".toList, by decide, rfl⟩

/-- C5: parseAuthorizationHeader succeeds exactly when trimming and
splitting on whitespace runs yields two tokens; the scheme is the first
token lower-cased and the token is the second, unchanged; any other token
count gives none. -/
theorem parseAuthorizationHeader_spec (s : List Char) :
    (∀ r, parseAuthorizationHeader s = some r ↔
      ∃ sc tk, splitWs (jsTrim s) = [sc, tk] ∧ r = ⟨sc.map jsToLower, tk⟩) ∧
    ((splitWs (jsTrim s)).length ≠ 2 → parseAuthorizationHeader s = none) := by
  constructor
  · intro r
    rw [parse_characterization s]
    match hp : splitWs (jsTrim s) with
    | [] => simp
    | [sc] => simp
    | sc :: tk :: c :: t => simp
    | [sc, tk] =>
      constructor
      · intro h
        exact ⟨sc, tk, rfl, (Option.some.injEq _ _).mp h.symm⟩
      · rintro ⟨sc2, tk2, h2, hr⟩
        have h3 : sc = sc2 ∧ tk = tk2 := by
          simpa using h2
        rw [hr, ← h3.1, ← h3.2]
  · intro hlen
    rw [parse_characterization s]
    match hp : splitWs (jsTrim s) with
    | [] => rfl
    | [sc] => rfl
    | sc :: tk :: c :: t => rfl
    | [sc, tk] =>
      rw [hp] at hlen
      simp at hlen

theorem parseAuthorizationHeader_spec_witness :
    parseAuthorizationHeader ("Bearer  tok123".toList) =
      some ⟨"bearer".toList, "tok123".toList⟩ :=
  ((parseAuthorizationHeader_spec ("Bearer  tok123".toList)).1 _).mpr
    ⟨"Bearer".toList, "tok123".toList, by decide, by decide⟩

/-- C6: on an exempted path validateBearerAuth returns the exempted
success result no matter what the Authorization header is. -/
theorem validateBearerAuth_exempted (validTokens exemptedPaths : List (List Char))
    (authHeader : Option (List Char)) (path : List Char)
    (hex : isExemptedPath exemptedPaths path = true) :
    validateBearerAuth validTokens exemptedPaths authHeader path = exemptedResult := by
  unfold validateBearerAuth
  rw [if_pos hex]

theorem validateBearerAuth_exempted_witness :
    validateBearerAuth ["secret1".toList] ["/api/health".toList] none
      ("/api/health/detailed".toList) = exemptedResult :=
  validateBearerAuth_exempted _ _ _ _ (by decide)

/-- C7: isExemptedPath is true exactly when the path equals an exempted
entry or extends one across the path separator, and the current
configuration (the empty EXEMPTED_PATHS) exempts nothing. -/
theorem isExemptedPath_spec (exemptedPaths : List (List Char)) (path : List Char) :
    (isExemptedPath exemptedPaths path = true ↔
      ∃ ep ∈ exemptedPaths, path = ep ∨ ∃ rest, path = ep ++ '/' :: rest) ∧
    isExemptedPath EXEMPTED_PATHS path = false := by
  constructor
  · unfold isExemptedPath
    rw [List.any_eq_true]
    constructor
    · rintro ⟨ep, hep, hmatch⟩
      refine ⟨ep, hep, ?_⟩
      rcases Bool.or_eq_true_iff.mp hmatch with h1 | h1
      · exact Or.inl (by simpa using h1)
      · rcases List.isPrefixOf_iff_prefix.mp h1 with ⟨rest, hrest⟩
        exact Or.inr ⟨rest, by rw [← hrest]; simp⟩
    · rintro ⟨ep, hep, hmatch⟩
      refine ⟨ep, hep, ?_⟩
      rcases hmatch with h1 | ⟨rest, hrest⟩
      · simp [h1]
      · apply Bool.or_eq_true_iff.mpr
        right
        apply List.isPrefixOf_iff_prefix.mpr
        exact ⟨rest, by rw [hrest]; simp⟩
  · rfl

theorem isExemptedPath_spec_witness :
    isExemptedPath ["/api/health".toList] ("/api/health/detailed".toList) = true :=
  (isExemptedPath_spec ["/api/health".toList] ("/api/health/detailed".toList)).1.mpr
    ⟨"/api/health".toList, by decide, Or.inr ⟨"detailed".toList, by decide⟩⟩

/-- C8: whatever exception the body of compareTokens raises (in building
the byte buffers or inside the equality primitive), the catch handler
turns it into the answer false, so comparison never reports a match on an
internal fault and never propagates the exception. -/
theorem compareTokens_fault_to_false
    (buf : List Char → Except String (List Nat))
    (tse : List Nat → List Nat → Except String Bool)
    (providedToken validToken : List Char) (e : String)
    (h : compareTokensBody buf tse providedToken validToken = Except.error e) :
    compareTokensWith buf tse providedToken validToken = false := by
  unfold compareTokensWith
  rw [h]

theorem compareTokens_fault_to_false_witness :
    compareTokensWith (fun _ => Except.error "encoding failure") timingSafeEqual
      ("a".toList) ("a".toList) = false :=
  compareTokens_fault_to_false (fun _ => Except.error "encoding failure")
    timingSafeEqual ("a".toList) ("a".toList) "encoding failure" rfl

theorem parse_some_props (s : List Char) (r : ParsedAuthHeader)
    (h : parseAuthorizationHeader s = some r) :
    r.scheme ≠ [] ∧ r.token ≠ [] ∧ ∀ c ∈ r.scheme, ¬ isAsciiUpper c := by
  rw [parse_characterization s] at h
  rcases hsplit : splitWs (jsTrim s) with _ | ⟨sc, _ | ⟨tk, _ | ⟨u, t⟩⟩⟩ <;> rw [hsplit] at h
  · simp at h
  · simp at h
  · have htrim : jsTrim s ≠ [] := by
      intro h0
      rw [h0] at hsplit
      simp [splitWs, splitWsAux] at hsplit
    have hsc : sc ≠ [] := splitWs_jsTrim_nonempty s htrim sc (by rw [hsplit]; simp)
    have htk : tk ≠ [] := splitWs_jsTrim_nonempty s htrim tk (by rw [hsplit]; simp)
    have hr : r = ⟨sc.map jsToLower, tk⟩ := by
      simpa using h.symm
    subst hr
    refine ⟨by simpa using hsc, htk, ?_⟩
    intro c hc
    rcases List.mem_map.mp hc with ⟨a, _, ha⟩
    rw [← ha]
    exact jsToLower_not_upper a
  · simp at h

/-- C10: a successful parse always has a non-empty scheme, a non-empty
token and no upper-case letter in the scheme; consequently the
empty-token branch of validateBearerAuth (its distinct result object
emptyTokenResult) is unreachable for every input. -/
theorem parse_nonempty_empty_branch_dead :
    (∀ s r, parseAuthorizationHeader s = some r →
      r.scheme ≠ [] ∧ r.token ≠ [] ∧ ∀ c ∈ r.scheme, ¬ isAsciiUpper c) ∧
    (∀ (validTokens exemptedPaths : List (List Char))
        (authHeader : Option (List Char)) (path : List Char),
      validateBearerAuth validTokens exemptedPaths authHeader path ≠ emptyTokenResult) := by
  refine ⟨parse_some_props, ?_⟩
  intro validTokens exemptedPaths authHeader path
  unfold validateBearerAuth
  split
  · show exemptedResult ≠ emptyTokenResult
    decide
  split
  · show missingAuthResult ≠ emptyTokenResult
    decide
  rename_i hdr
  split
  · show missingAuthResult ≠ emptyTokenResult
    decide
  split
  · show malformedResult ≠ emptyTokenResult
    decide
  rename_i parsed hparse
  split
  · show invalidSchemeResult ≠ emptyTokenResult
    decide
  split
  · rename_i htk
    exact absurd htk (parse_some_props hdr parsed hparse).2.1
  split
  · show invalidTokenResult ≠ emptyTokenResult
    decide
  · show successResult ≠ emptyTokenResult
    decide

theorem parse_nonempty_empty_branch_dead_witness :
    ("bearer".toList ≠ ([] : List Char)) ∧ ("x".toList ≠ ([] : List Char)) ∧
      ∀ c ∈ "bearer".toList, ¬ isAsciiUpper c := by
  have h := parse_nonempty_empty_branch_dead.1 ("Bearer x".toList)
    ⟨"bearer".toList, "x".toList⟩ (by decide)
  simpa using h

/-- C1: on every non-exempted path, validateBearerAuth decides exactly as
the transition table of the specification, evaluated strictly in order
with first match winning. -/
theorem validateBearerAuth_refines_spec (validTokens exemptedPaths : List (List Char))
    (authHeader : Option (List Char)) (path : List Char)
    (hex : isExemptedPath exemptedPaths path = false) :
    decisionOf (validateBearerAuth validTokens exemptedPaths authHeader path) =
      specAuthDecision validTokens authHeader := by
  unfold validateBearerAuth specAuthDecision
  rw [if_neg (by simp [hex])]
  cases authHeader with
  | none => exact decisionOf_missing
  | some h =>
    dsimp only
    by_cases hm : h = [] ∨ jsTrim h = []
    · rw [if_pos hm]
      have htr : jsTrim h = [] := by
        rcases hm with h0 | h0
        · rw [h0]
          rfl
        · exact h0
      rw [if_pos htr]
      exact decisionOf_missing
    · rw [if_neg hm]
      have htrim : jsTrim h ≠ [] := fun h0 => hm (Or.inr h0)
      rw [if_neg htrim]
      rcases hsplit : splitWs (jsTrim h) with _ | ⟨sc, _ | ⟨tk, _ | ⟨u, t⟩⟩⟩
      · rw [parse_characterization h, hsplit]
        exact decisionOf_malformed
      · rw [parse_characterization h, hsplit]
        exact decisionOf_malformed
      · have htkself : jsTrim tk = tk := by
          apply jsTrim_eq_self_of_no_ws
          intro c hc
          exact splitWs_no_ws (jsTrim h) tk (by rw [hsplit]; simp) c hc
        rw [parse_characterization h, hsplit]
        dsimp only
        rw [htkself]
        by_cases hs : sc.map jsToLower = ['b', 'e', 'a', 'r', 'e', 'r'] <;>
          by_cases htk0 : tk = [] <;>
            by_cases hv : isValidToken validTokens tk <;>
              simp [hs, htk0, hv, decisionOf_invalidScheme, decisionOf_emptyToken,
                decisionOf_invalidToken, decisionOf_success, decisionOf_malformed]
      · rw [parse_characterization h, hsplit]
        exact decisionOf_malformed

theorem validateBearerAuth_refines_spec_witness :
    isExemptedPath ([] : List (List Char)) ("/api/orders".toList) = false ∧
      decisionOf (validateBearerAuth ["secret1".toList] [] (some ("Basic abc".toList))
          ("/api/orders".toList)) =
        specAuthDecision ["secret1".toList] (some ("Basic abc".toList)) :=
  ⟨by decide,
   validateBearerAuth_refines_spec ["secret1".toList] [] (some ("Basic abc".toList))
     ("/api/orders".toList) (by decide)⟩

/-- C3: when validation fails, the middleware responds 401 with the
standardized JSON body (success false, the failure's error code, which is
one of the four reason codes, its message, and the timestamp) and never
calls the next handler; when validation succeeds (plainly or by
exemption), it calls the next handler and produces no response. -/
theorem bearerAuth_gate (validTokens exemptedPaths : List (List Char))
    (logFlag : Bool) (req : RequestModel) (now : String) :
    ((validateBearerAuth validTokens exemptedPaths req.authHeader req.path).success = false →
      ∃ e m,
        (validateBearerAuth validTokens exemptedPaths req.authHeader req.path).error = some e ∧
        (validateBearerAuth validTokens exemptedPaths req.authHeader req.path).message = some m ∧
        (e = "Missing authorization" ∨ e = "Invalid scheme" ∨ e = "Invalid token" ∨
          e = "Malformed header") ∧
        bearerAuth validTokens exemptedPaths logFlag req now =
          ⟨logAuthenticationFailure logFlag "Authentication failed" now (some e) req.path
             (getClientIP req) req.userAgent,
           MiddlewareAction.respond 401 ⟨false, some e, some m, now⟩⟩) ∧
    ((validateBearerAuth validTokens exemptedPaths req.authHeader req.path).success = true →
      bearerAuth validTokens exemptedPaths logFlag req now =
        ⟨none, MiddlewareAction.callNext⟩) := by
  rcases validateBearerAuth_cases validTokens exemptedPaths req.authHeader req.path with
    hc | hc | hc | hc | hc | hc | hc <;>
    rw [hc] <;> constructor <;> intro hsucc
  case' inl.left => exact absurd hsucc (by decide)
  case' inr.inr.inr.inr.inr.inr.left => exact absurd hsucc (by decide)
  case' inl.right => simp [bearerAuth, hc, exemptedResult]
  case' inr.inr.inr.inr.inr.inr.right => simp [bearerAuth, hc, successResult]
  all_goals first
    | exact absurd hsucc (by decide)
    | (refine ⟨_, _, rfl, rfl, by simp, ?_⟩
       simp [bearerAuth, hc, missingAuthResult, malformedResult, invalidSchemeResult,
         emptyTokenResult, invalidTokenResult])

theorem bearerAuth_gate_witness :
    ∃ e m,
      (validateBearerAuth [] [] none ("/api/orders".toList)).error = some e ∧
      (validateBearerAuth [] [] none ("/api/orders".toList)).message = some m ∧
      (e = "Missing authorization" ∨ e = "Invalid scheme" ∨ e = "Invalid token" ∨
        e = "Malformed header") ∧
      bearerAuth [] [] true ⟨none, "/api/orders".toList, none, none, none⟩ "ts" =
        ⟨logAuthenticationFailure true "Authentication failed" "ts" (some e)
           ("/api/orders".toList)
           (getClientIP ⟨none, "/api/orders".toList, none, none, none⟩) none,
         MiddlewareAction.respond 401 ⟨false, some e, some m, "ts"⟩⟩ :=
  (bearerAuth_gate [] [] true ⟨none, "/api/orders".toList, none, none, none⟩ "ts").1
    (by decide)

end PriceTracker
